import Mathlib

/-!
A shallow embedding of `sqlite_backup/core.py` (repository
`seanbreckenridge/sqlite_backup`).

File names and directory names are modelled as lists of characters; a
path is a (directory, file-name) pair.  The filesystem, the set of
existing directories and the sqlite connections opened so far form an
explicit `World` that every operation threads.  Logical database
content is abstracted as a natural number: `shutil.copy` copies that
number, `sqlite3.Connection.backup` transfers the number held by the
primary database file into the destination (file or in-memory
connection).  Fallible code returns `Except`, carrying the world at the
point the exception was raised so that the state on error paths can be
reasoned about.  The behaviour of the external sqlite engine during
`backup` and the wal checkpoint is a parameter (`Engine`): each step
either succeeds or raises an engine error, exactly as the Python code
lets such exceptions propagate.
-/

/-- File and directory names, as in `Path.name` / `Path.parent`. -/
abbrev FsName := List Char

/-- A filesystem path, split as `Path.parent` / `Path.name`. -/
structure DbPath where
  dir : FsName
  name : FsName
deriving DecidableEq, Repr

/-- What a `sqlite3.Connection` is connected to: `":memory:"` or a file. -/
inductive ConnTarget where
  | memory : ConnTarget
  | file : DbPath → ConnTarget
deriving DecidableEq, Repr

/-- A `sqlite3.Connection`: identifier, target, whether `close()` has not yet
been called, and (for in-memory connections) the logical database content
it holds. -/
structure Conn where
  id : Nat
  target : ConnTarget
  isOpen : Bool
  mem : Nat
deriving DecidableEq, Repr

/-- The world: existing files with their (abstracted) content, existing
directories, connections opened so far, and fresh-id counters for
connections and temporary directories. -/
structure World where
  files : List (DbPath × Nat)
  dirs : List FsName
  conns : List Conn
  nextConn : Nat
  nextTemp : Nat
deriving DecidableEq, Repr

/-- Content of the file at `p`, `none` when no such file exists. -/
def lookupFile (p : DbPath) : List (DbPath × Nat) → Option Nat
  | [] => none
  | (q, c) :: rest => if q = p then some c else lookupFile p rest

/-- Write content `c` to the file at `p`, overwriting an existing file. -/
def setFile (p : DbPath) (c : Nat) : List (DbPath × Nat) → List (DbPath × Nat)
  | [] => [(p, c)]
  | (q, d) :: rest => if q = p then (p, c) :: rest else (q, d) :: setFile p c rest

/-- The names of the files that live in directory `d`, in listing order. -/
def dirListing (d : FsName) (files : List (DbPath × Nat)) : List FsName :=
  files.filterMap (fun pc => if pc.1.dir = d then some pc.1.name else none)

/-- `CopyFunction` from `core.py`: a copy function receives the source and
destination paths, may modify the world (it is expected to write the
destination) and reports whether the copy was clean. -/
def CopyFunction : Type := DbPath → DbPath → World → Bool × World

/-- `COPY_RETRY_DEFAULT: int = 100` from `core.py`. -/
def COPY_RETRY_DEFAULT : Int := 100

/-- The exceptions `sqlite_backup` can raise: `FileNotFoundError` (missing
source, carrying the path), `ValueError` (destination equals source, or the
stager's non-directory branch), `SqliteBackupError` (staging exhaustion in
strict mode), `AssertionError` (staged primary file missing), and engine
errors propagated from the sqlite library. -/
inductive Err where
  | fileNotFound : DbPath → Err
  | valueError : List Char → Err
  | sqliteBackupError : List Char → Err
  | assertionError : List Char → Err
  | engineError : List Char → Err
deriving DecidableEq, Repr

/-- Behaviour of the external sqlite engine during this call: whether
`Connection.backup` raises, and whether the wal-checkpoint `PRAGMA`
raises. -/
structure Engine where
  backupErr : Option (List Char)
  checkpointErr : Option (List Char)
deriving DecidableEq, Repr

/-- The sidecar suffix `"-shm"` that `glob_database_files` skips. -/
def shmSuffix : FsName := ['-', 's', 'h', 'm']

/-- `glob_database_files` from `core.py`: the primary file first, then every
file of the directory listing matching the glob pattern `name + "-*"`,
skipping names ending in `"-shm"`. -/
def glob_database_files (primary : FsName) (listing : List FsName) : List FsName :=
  primary ::
    listing.filter (fun n =>
      (primary ++ ['-']).isPrefixOf n && !(shmSuffix.isSuffixOf n))

/-- One iteration step history of `atomic_copy`'s `while True` loop, run
against an environment trace: `cmp i` is the outcome of the `filecmp.cmp`
call of iteration `i` (it is `false` exactly when the source changed while
iteration `i` was copying it).  `succeeded` is the function-level flag from
`core.py`; the loop returns at the first comparison reporting equal.  The
Python loop is unbounded, so the embedding takes explicit fuel and returns
`none` when the loop has not returned within `fuel` iterations. -/
def atomicCopyLoop (cmp : Nat → Bool) (succeeded : Bool) (i : Nat) : Nat → Option Bool
  | 0 => none
  | fuel + 1 =>
    if cmp i then some succeeded
    else atomicCopyLoop cmp false (i + 1) fuel

/-- `atomic_copy` from `core.py`, over a comparison trace: starts with
`succeeded = True` at iteration 0. -/
def atomic_copy (cmp : Nat → Bool) (fuel : Nat) : Option Bool :=
  atomicCopyLoop cmp true 0 fuel

/-- The built-in `atomic_copy` acting on the world, used as the default
`copy_function`.  In the sequential world there is no concurrent writer, so
the source cannot change between `shutil.copy` and `filecmp.cmp`: the
`while True` loop exits on its first iteration with `succeeded = True`
(the loop itself, against a changing source, is `atomic_copy` above).
A missing source is left as a no-op; inside the orchestrator every source
handed to the copier exists. -/
def atomic_copy_fs : CopyFunction := fun src dest w =>
  match lookupFile src w.files with
  | some c => (true, { w with files := setFile dest c w.files })
  | none => (true, w)

/-- One staging round: `all([copy_function(s, d) for s, d in copies])` from
`copy_all_files`.  The Python list comprehension calls the copy function on
every pair before `all` folds the results, so no short-circuiting happens;
the world threads left to right. -/
def runRound (copies : List (DbPath × DbPath)) (cf : CopyFunction) (w : World) :
    Bool × World :=
  match copies with
  | [] => (true, w)
  | (s, d) :: rest =>
    let r := cf s d w
    let rr := runRound rest cf r.2
    (r.1 && rr.1, rr.2)

/-- The per-pair clean flags of one staging round, in order. -/
def roundResults (copies : List (DbPath × DbPath)) (cf : CopyFunction) (w : World) :
    List Bool :=
  match copies with
  | [] => []
  | (s, d) :: rest =>
    let r := cf s d w
    r.1 :: roundResults rest cf r.2

/-- The `while retry >= 0` loop of `copy_all_files`, with `fuel` the number
of remaining rounds (`retry + 1` at entry).  Returns the result, the world,
and the number of rounds actually executed. -/
def copyRounds (copies : List (DbPath × DbPath)) (cf : CopyFunction) :
    Nat → World → Bool × World × Nat
  | 0, w => (false, w, 0)
  | fuel + 1, w =>
    let r := runRound copies cf w
    if r.1 then (true, r.2, 1)
    else
      let rec_ := copyRounds copies cf fuel r.2
      (rec_.1, rec_.2.1, rec_.2.2 + 1)

/-- The world after `j` staging rounds. -/
def afterRounds (copies : List (DbPath × DbPath)) (cf : CopyFunction) (w : World) :
    Nat → World
  | 0 => w
  | j + 1 => afterRounds copies cf (runRound copies cf w).2 j

/-- Whether the round started in world `w` is clean. -/
def roundClean (copies : List (DbPath × DbPath)) (cf : CopyFunction) (w : World) :
    Bool :=
  (runRound copies cf w).1

/-- `copy_all_files` from `core.py`: raises `ValueError` when the staging
destination is not a directory, otherwise zips sources with their staged
destinations and runs up to `retry + 1` rounds (`while retry >= 0` with a
decrement; a negative budget means zero rounds). -/
def copy_all_files (source_files : List DbPath) (temporary_dest : FsName)
    (copy_function : CopyFunction) (retry : Int) (w : World) :
    Except (Err × World) (Bool × World) :=
  if temporary_dest ∈ w.dirs then
    let copies := source_files.map (fun s => (s, DbPath.mk temporary_dest s.name))
    let r := copyRounds copies copy_function (retry + 1).toNat w
    Except.ok (r.1, r.2.1)
  else
    Except.error (Err.valueError ['n', 'o', 't', 'd', 'i', 'r'], w)

/-- Open a new connection to `t`: records the connection as open with a
fresh identifier. -/
def openConn (t : ConnTarget) (w : World) : Nat × World :=
  (w.nextConn,
    { w with
        conns := Conn.mk w.nextConn t true 0 :: w.conns
        nextConn := w.nextConn + 1 })

/-- `Connection.close()` on the connection with identifier `i`. -/
def closeConn (i : Nat) (w : World) : World :=
  { w with
      conns := w.conns.map (fun c => if c.id = i then { c with isOpen := false } else c) }

/-- `conn.backup(target_connection)`: stream the logical content `data` of
the opened database into the target — into the connection's memory store
for an in-memory target, onto the destination file otherwise. -/
def writeBackup (t : ConnTarget) (targetId : Nat) (data : Nat) (w : World) : World :=
  match t with
  | ConnTarget.memory =>
    { w with
        conns := w.conns.map (fun c => if c.id = targetId then { c with mem := data } else c) }
  | ConnTarget.file p => { w with files := setFile p data w.files }

/-- The name `TemporaryDirectory()` picks, fresh by counter. -/
def tempDirName (n : Nat) : FsName := ('t' :: 'm' :: 'p' :: []) ++ (Nat.repr n).data

/-- `TemporaryDirectory.__exit__`: remove the staging directory and every
file inside it. -/
def cleanupTd (td : FsName) (w : World) : World :=
  { w with
      dirs := w.dirs.erase td
      files := w.files.filter (fun pc => !(pc.1.dir = td : Bool)) }

/-- Error message of the strict-mode staging-exhaustion error. -/
def stagingExhaustedMsg : List Char := ['e', 'x', 'h', 'a', 'u', 's', 't', 'e', 'd']

/-- Error message of the `assert copy_from.exists()` failure. -/
def assertMsg : List Char := ['n', 'o', 'c', 'o', 'p', 'y']

/-- Error message of the destination-equals-source `ValueError`. -/
def sameMsg : List Char := ['s', 'a', 'm', 'e']

/-- Lines 231-252 of `core.py`: open the target connection (in-memory when
no destination was given, the destination file otherwise), open the
connection to `copy_from`, run `conn.backup(target_connection)`, run the
wal checkpoint when a destination was given and it was requested, and
finally `conn.close()`.  An engine error from `backup` or from the
checkpoint propagates before `conn.close()` is reached, exactly as in the
code. -/
def backupAndFinalize (destination : Option DbPath) (wal_checkpoint : Bool)
    (eng : Engine) (copy_from : DbPath) (w1 : World) :
    Except (Err × World) (Nat × World) :=
  let tgt : ConnTarget :=
    match destination with
    | none => ConnTarget.memory
    | some d => ConnTarget.file d
  let t1 := openConn tgt w1
  let t2 := openConn (ConnTarget.file copy_from) t1.2
  match eng.backupErr with
  | some m => Except.error (Err.engineError m, t2.2)
  | none =>
    let data := (lookupFile copy_from t2.2.files).getD 0
    let w4 := writeBackup tgt t1.1 data t2.2
    match destination, wal_checkpoint with
    | some _, true =>
      match eng.checkpointErr with
      | some m => Except.error (Err.engineError m, w4)
      | none => Except.ok (t1.1, closeConn t2.1 w4)
    | _, _ => Except.ok (t1.1, closeConn t2.1 w4)

/-- The body of the `with TemporaryDirectory() as td` block of
`sqlite_backup` (`core.py` lines 206-252): staging into the temporary
directory (or skip-staging with a warning), then `backupAndFinalize`.
On success it returns the target connection's identifier; any exception
carries the world at the raise point. -/
def sqliteBackupBody (source : DbPath) (destination : Option DbPath)
    (wal_checkpoint copy_use_tempdir : Bool) (copy_retry : Int)
    (copy_retry_strict : Bool) (copy_function : CopyFunction) (eng : Engine)
    (td : FsName) (w : World) : Except (Err × World) (Nat × World) :=
  let staged : Except (Err × World) (DbPath × World) :=
    if copy_use_tempdir then
      match copy_all_files
          ((glob_database_files source.name (dirListing source.dir w.files)).map
            (fun n => DbPath.mk source.dir n))
          td copy_function copy_retry w with
      | Except.error e => Except.error e
      | Except.ok (succeeded, w1) =>
        if !succeeded && copy_retry_strict then
          Except.error (Err.sqliteBackupError stagingExhaustedMsg, w1)
        else
          let copy_from := DbPath.mk td source.name
          match lookupFile copy_from w1.files with
          | none => Except.error (Err.assertionError assertMsg, w1)
          | some _ => Except.ok (copy_from, w1)
    else
      Except.ok (source, w)
  match staged with
  | Except.error e => Except.error e
  | Except.ok (copy_from, w1) => backupAndFinalize destination wal_checkpoint eng copy_from w1

/-- `sqlite_backup` from `core.py`: validate that the source exists and
differs from the destination, create the temporary staging directory, run
the body, remove the staging directory whether the body succeeded or
raised, then either hand the open in-memory connection to the caller
(no destination) or close the destination connection and return nothing
(path destination). -/
def sqlite_backup (source : DbPath) (destination : Option DbPath)
    (wal_checkpoint copy_use_tempdir : Bool) (copy_retry : Int)
    (copy_retry_strict : Bool) (copy_function : CopyFunction) (eng : Engine)
    (w : World) : Except (Err × World) (Option Nat × World) :=
  if lookupFile source w.files = none then
    Except.error (Err.fileNotFound source, w)
  else if destination = some source then
    Except.error (Err.valueError sameMsg, w)
  else
    let td := tempDirName w.nextTemp
    let w0 := { w with dirs := td :: w.dirs, nextTemp := w.nextTemp + 1 }
    match sqliteBackupBody source destination wal_checkpoint copy_use_tempdir
        copy_retry copy_retry_strict copy_function eng td w0 with
    | Except.error (e, w1) => Except.error (e, cleanupTd td w1)
    | Except.ok (targetId, w1) =>
      let w2 := cleanupTd td w1
      match destination with
      | none => Except.ok (some targetId, w2)
      | some _ => Except.ok (none, closeConn targetId w2)

/-- The world carried inside a result, success or failure. -/
def resW {α : Type} : Except (Err × World) (α × World) → World
  | Except.error (_, w) => w
  | Except.ok (_, w) => w

/-- A copy function that touches no file other than the destination it was
handed.  The built-in `atomic_copy_fs` is one. -/
def WritesOnlyDest (cf : CopyFunction) : Prop :=
  ∀ s d w p, p ≠ d → lookupFile p ((cf s d w).2).files = lookupFile p w.files

/-- A copy function that only copies files: it opens no connection, creates
or removes no directory, and does not advance the fresh-id counters.  The
built-in `atomic_copy_fs` is one. -/
def PreservesMeta (cf : CopyFunction) : Prop :=
  ∀ s d w, ((cf s d w).2).conns = w.conns ∧ ((cf s d w).2).dirs = w.dirs ∧
    ((cf s d w).2).nextConn = w.nextConn ∧ ((cf s d w).2).nextTemp = w.nextTemp

/-- A copy function whose clean flag is always `false` (the hypothesis of
the strict-mode exhaustion scenario). -/
def AlwaysDirty (cf : CopyFunction) : Prop :=
  ∀ s d w, (cf s d w).1 = false

/-- A copy function whose clean flag is always `true`, as `atomic_copy_fs`
in the sequential world. -/
def AlwaysClean (cf : CopyFunction) : Prop :=
  ∀ s d w, (cf s d w).1 = true

theorem lookupFile_setFile_self (p : DbPath) (c : Nat) (fs : List (DbPath × Nat)) :
    lookupFile p (setFile p c fs) = some c := by
  induction fs with
  | nil => simp [setFile, lookupFile]
  | cons hd tl ih =>
    obtain ⟨a, b⟩ := hd
    by_cases h : a = p
    · simp [setFile, lookupFile, h]
    · simp [setFile, lookupFile, h, ih]

theorem lookupFile_setFile_ne {q p : DbPath} (c : Nat) (fs : List (DbPath × Nat))
    (h : p ≠ q) : lookupFile p (setFile q c fs) = lookupFile p fs := by
  have hqp : q ≠ p := Ne.symm h
  induction fs with
  | nil => simp [setFile, lookupFile, hqp]
  | cons hd tl ih =>
    obtain ⟨a, b⟩ := hd
    by_cases ha : a = q
    · subst ha
      simp [setFile, lookupFile, hqp]
    · simp [setFile, lookupFile, ha, ih]

theorem lookupFile_filter_dir (p : DbPath) {td : FsName} (fs : List (DbPath × Nat))
    (h : p.dir ≠ td) :
    lookupFile p (fs.filter (fun pc => !(pc.1.dir = td : Bool))) = lookupFile p fs := by
  induction fs with
  | nil => simp [lookupFile]
  | cons hd tl ih =>
    obtain ⟨a, b⟩ := hd
    by_cases hd1 : a.dir = td
    · have hne : a ≠ p := by
        intro hh
        exact h (hh ▸ hd1)
      simp [List.filter_cons, lookupFile, hd1, hne, ih]
    · by_cases hp : a = p
      · simp [List.filter_cons, lookupFile, hd1, hp, h]
      · simp [List.filter_cons, lookupFile, hd1, hp, ih]

/-- A name matched by the glob pattern `primary + "-*"` is strictly longer
than the primary name, hence different from it. -/
theorem glob_match_ne {primary n : FsName}
    (h : (primary ++ ['-']).isPrefixOf n = true) : n ≠ primary := by
  intro hEq
  subst hEq
  have hpre : (n ++ ['-']) <+: n := List.isPrefixOf_iff_prefix.mp h
  have := hpre.length_le
  simp at this

theorem atomicCopyLoop_some {cmp : Nat → Bool} :
    ∀ (fuel : Nat) (s : Bool) (i : Nat) (r : Bool),
      atomicCopyLoop cmp s i fuel = some r →
      ∃ k, k < fuel ∧ cmp (i + k) = true ∧ (∀ j, j < k → cmp (i + j) = false) ∧
        r = (s && decide (k = 0)) := by
  intro fuel
  induction fuel with
  | zero => intro s i r h; simp [atomicCopyLoop] at h
  | succ fuel ih =>
    intro s i r h
    by_cases hc : cmp i = true
    · refine ⟨0, Nat.succ_pos _, by simpa using hc, by omega, ?_⟩
      simp [atomicCopyLoop, hc] at h
      simp [← h]
    · simp [atomicCopyLoop, hc] at h
      obtain ⟨k, hk, hck, hprev, hr⟩ := ih false (i + 1) r h
      refine ⟨k + 1, by omega, by simpa [Nat.add_assoc, Nat.add_comm 1 k] using hck, ?_, ?_⟩
      · intro j hj
        match j with
        | 0 => simpa using hc
        | Nat.succ j' =>
          have := hprev j' (by omega)
          simpa [Nat.add_assoc, Nat.add_comm 1 j'] using this
      · simp [hr]

theorem atomicCopyLoop_none_iff {cmp : Nat → Bool} :
    ∀ (fuel : Nat) (s : Bool) (i : Nat),
      atomicCopyLoop cmp s i fuel = none ↔ (∀ k, k < fuel → cmp (i + k) = false) := by
  intro fuel
  induction fuel with
  | zero => intro s i; simp [atomicCopyLoop]
  | succ fuel ih =>
    intro s i
    by_cases hc : cmp i = true
    · simp only [atomicCopyLoop, hc, if_true]
      constructor
      · intro h; cases h
      · intro h
        have := h 0 (Nat.succ_pos _)
        simp [hc] at this
    · simp only [atomicCopyLoop, hc, if_false, Bool.false_eq_true]
      rw [ih false (i + 1)]
      constructor
      · intro h k hk
        match k with
        | 0 => simpa using hc
        | Nat.succ k' =>
          have := h k' (by omega)
          simpa [Nat.add_assoc, Nat.add_comm 1 k'] using this
      · intro h k hk
        have := h (k + 1) (by omega)
        simpa [Nat.add_assoc, Nat.add_comm 1 k] using this

/-- The specification of one `atomic_copy` call against a comparison trace:
it returns (within the given fuel) exactly at the first comparison that
reports equal, and its boolean is `true` exactly when that was the very
first comparison, i.e. when no iteration observed a mismatch. -/
theorem atomic_copy_spec {cmp : Nat → Bool} {fuel : Nat} {r : Bool}
    (h : atomic_copy cmp fuel = some r) :
    ∃ k, k < fuel ∧ cmp k = true ∧ (∀ j, j < k → cmp j = false) ∧
      r = decide (k = 0) := by
  obtain ⟨k, hk, hck, hprev, hr⟩ := atomicCopyLoop_some fuel true 0 r h
  exact ⟨k, hk, by simpa using hck, fun j hj => by simpa using hprev j hj, by simpa using hr⟩

theorem atomic_copy_none_iff {cmp : Nat → Bool} {fuel : Nat} :
    atomic_copy cmp fuel = none ↔ ∀ k, k < fuel → cmp k = false := by
  rw [atomic_copy, atomicCopyLoop_none_iff]
  simp

theorem atomic_copy_fs_alwaysClean : AlwaysClean atomic_copy_fs := by
  intro s d w
  unfold atomic_copy_fs
  cases lookupFile s w.files <;> simp

theorem atomic_copy_fs_writesOnlyDest : WritesOnlyDest atomic_copy_fs := by
  intro s d w p hp
  unfold atomic_copy_fs
  cases h : lookupFile s w.files with
  | none => simp
  | some c => simpa using lookupFile_setFile_ne c w.files hp

theorem atomic_copy_fs_preservesMeta : PreservesMeta atomic_copy_fs := by
  intro s d w
  unfold atomic_copy_fs
  cases lookupFile s w.files <;> simp

theorem atomic_copy_fs_writes {s d : DbPath} {w : World} {c : Nat}
    (h : lookupFile s w.files = some c) :
    lookupFile d ((atomic_copy_fs s d w).2).files = some c := by
  unfold atomic_copy_fs
  rw [h]
  simpa using lookupFile_setFile_self d c w.files

theorem runRound_fst_eq_all (copies : List (DbPath × DbPath)) (cf : CopyFunction)
    (w : World) : (runRound copies cf w).1 = (roundResults copies cf w).all (fun b => b) := by
  induction copies generalizing w with
  | nil => simp [runRound, roundResults]
  | cons hd tl ih =>
    obtain ⟨s, d⟩ := hd
    simp [runRound, roundResults, ih]

theorem runRound_clean_of_alwaysClean {cf : CopyFunction} (h : AlwaysClean cf)
    (copies : List (DbPath × DbPath)) (w : World) : (runRound copies cf w).1 = true := by
  induction copies generalizing w with
  | nil => simp [runRound]
  | cons hd tl ih =>
    obtain ⟨s, d⟩ := hd
    simp [runRound, h s d w, ih]

theorem runRound_dirty_of_alwaysDirty {cf : CopyFunction} (h : AlwaysDirty cf)
    (copies : List (DbPath × DbPath)) (w : World) (hne : copies ≠ []) :
    (runRound copies cf w).1 = false := by
  match copies with
  | [] => exact absurd rfl hne
  | (s, d) :: tl => simp [runRound, h s d w]

theorem runRound_meta {cf : CopyFunction} (h : PreservesMeta cf)
    (copies : List (DbPath × DbPath)) (w : World) :
    ((runRound copies cf w).2).conns = w.conns ∧ ((runRound copies cf w).2).dirs = w.dirs ∧
      ((runRound copies cf w).2).nextConn = w.nextConn ∧
      ((runRound copies cf w).2).nextTemp = w.nextTemp := by
  induction copies generalizing w with
  | nil => simp [runRound]
  | cons hd tl ih =>
    obtain ⟨s, d⟩ := hd
    obtain ⟨h1, h2, h3, h4⟩ := h s d w
    obtain ⟨g1, g2, g3, g4⟩ := ih ((cf s d w).2)
    exact ⟨by simp [runRound, g1, h1], by simp [runRound, g2, h2],
      by simp [runRound, g3, h3], by simp [runRound, g4, h4]⟩

theorem runRound_files_frame {cf : CopyFunction} (hcf : WritesOnlyDest cf)
    (copies : List (DbPath × DbPath)) (w : World) (p : DbPath)
    (hp : ∀ cp ∈ copies, cp.2 ≠ p) :
    lookupFile p ((runRound copies cf w).2).files = lookupFile p w.files := by
  induction copies generalizing w with
  | nil => simp [runRound]
  | cons hd tl ih =>
    obtain ⟨s, d⟩ := hd
    have hd' : p ≠ d := Ne.symm (hp (s, d) (List.mem_cons_self _ _))
    have htl : ∀ cp ∈ tl, cp.2 ≠ p := fun cp hcp => hp cp (List.mem_cons_of_mem _ hcp)
    simp only [runRound]
    rw [ih ((cf s d w).2) htl, hcf s d w p hd']

theorem runRound_stages_head {copies : List (DbPath × DbPath)} {s0 d0 : DbPath}
    {w : World} {c : Nat} (hsrc : lookupFile s0 w.files = some c)
    (hrest : ∀ cp ∈ copies, cp.2 ≠ d0) :
    lookupFile d0 ((runRound ((s0, d0) :: copies) atomic_copy_fs w).2).files = some c := by
  simp only [runRound]
  rw [runRound_files_frame atomic_copy_fs_writesOnlyDest copies _ d0 hrest]
  exact atomic_copy_fs_writes hsrc

theorem copyRounds_count_le (copies : List (DbPath × DbPath)) (cf : CopyFunction) :
    ∀ (fuel : Nat) (w : World), (copyRounds copies cf fuel w).2.2 ≤ fuel := by
  intro fuel
  induction fuel with
  | zero => intro w; simp [copyRounds]
  | succ fuel ih =>
    intro w
    by_cases h : (runRound copies cf w).1 = true
    · simp [copyRounds, h]
    · simp only [copyRounds, h, if_false, Bool.false_eq_true]
      have := ih (runRound copies cf w).2
      omega

theorem copyRounds_true_spec (copies : List (DbPath × DbPath)) (cf : CopyFunction) :
    ∀ (fuel : Nat) (w w' : World) (n : Nat),
      copyRounds copies cf fuel w = (true, w', n) →
      ∃ k, n = k + 1 ∧ k < fuel ∧
        roundClean copies cf (afterRounds copies cf w k) = true ∧
        (∀ j, j < k → roundClean copies cf (afterRounds copies cf w j) = false) ∧
        w' = afterRounds copies cf w (k + 1) := by
  intro fuel
  induction fuel with
  | zero => intro w w' n h; simp [copyRounds] at h
  | succ fuel ih =>
    intro w w' n h
    by_cases hc : (runRound copies cf w).1 = true
    · simp only [copyRounds, hc, if_true, Prod.mk.injEq] at h
      refine ⟨0, by omega, by omega, ?_, by omega, ?_⟩
      · simpa [roundClean, afterRounds] using hc
      · simp [afterRounds, ← h.2.1]
    · simp only [copyRounds, hc, if_false, Bool.false_eq_true, Prod.mk.injEq] at h
      obtain ⟨hb, hw, hn⟩ := h
      obtain ⟨k, hk1, hk2, hk3, hk4, hk5⟩ :=
        ih (runRound copies cf w).2 w' (copyRounds copies cf fuel (runRound copies cf w).2).2.2
          (by rw [← hb, ← hw])
      refine ⟨k + 1, by omega, by omega, ?_, ?_, ?_⟩
      · simpa [afterRounds] using hk3
      · intro j hj
        match j with
        | 0 => simpa [roundClean, afterRounds] using hc
        | Nat.succ j' =>
          have := hk4 j' (by omega)
          simpa [afterRounds] using this
      · rw [hk5]
        simp [afterRounds]

theorem copyRounds_false_spec (copies : List (DbPath × DbPath)) (cf : CopyFunction) :
    ∀ (fuel : Nat) (w w' : World) (n : Nat),
      copyRounds copies cf fuel w = (false, w', n) →
      n = fuel ∧ (∀ j, j < fuel → roundClean copies cf (afterRounds copies cf w j) = false) ∧
        w' = afterRounds copies cf w fuel := by
  intro fuel
  induction fuel with
  | zero =>
    intro w w' n h
    simp only [copyRounds, Prod.mk.injEq] at h
    exact ⟨h.2.2.symm, by omega, h.2.1.symm⟩
  | succ fuel ih =>
    intro w w' n h
    by_cases hc : (runRound copies cf w).1 = true
    · simp [copyRounds, hc] at h
    · simp only [copyRounds, hc, if_false, Bool.false_eq_true, Prod.mk.injEq] at h
      obtain ⟨hb, hw, hn⟩ := h
      obtain ⟨g1, g2, g3⟩ :=
        ih (runRound copies cf w).2 w' (copyRounds copies cf fuel (runRound copies cf w).2).2.2
          (by rw [← hb, ← hw])
      refine ⟨by omega, ?_, ?_⟩
      · intro j hj
        match j with
        | 0 => simpa [roundClean, afterRounds] using hc
        | Nat.succ j' =>
          have := g2 j' (by omega)
          simpa [afterRounds] using this
      · rw [g3]
        simp [afterRounds]

theorem copyRounds_alwaysDirty {cf : CopyFunction} (h : AlwaysDirty cf)
    (copies : List (DbPath × DbPath)) (hne : copies ≠ []) :
    ∀ (fuel : Nat) (w : World),
      (copyRounds copies cf fuel w).1 = false ∧ (copyRounds copies cf fuel w).2.2 = fuel := by
  intro fuel
  induction fuel with
  | zero => intro w; simp [copyRounds]
  | succ fuel ih =>
    intro w
    have hd := runRound_dirty_of_alwaysDirty h copies w hne
    have := ih (runRound copies cf w).2
    simp only [copyRounds, hd, Bool.false_eq_true, if_false]
    exact ⟨this.1, by omega⟩

theorem copyRounds_clean_first {cf : CopyFunction} (h : AlwaysClean cf)
    (copies : List (DbPath × DbPath)) (fuel : Nat) (w : World) :
    copyRounds copies cf (fuel + 1) w = (true, (runRound copies cf w).2, 1) := by
  simp [copyRounds, runRound_clean_of_alwaysClean h]

theorem copyRounds_meta {cf : CopyFunction} (h : PreservesMeta cf)
    (copies : List (DbPath × DbPath)) :
    ∀ (fuel : Nat) (w : World),
      ((copyRounds copies cf fuel w).2.1).conns = w.conns ∧
      ((copyRounds copies cf fuel w).2.1).dirs = w.dirs ∧
      ((copyRounds copies cf fuel w).2.1).nextConn = w.nextConn ∧
      ((copyRounds copies cf fuel w).2.1).nextTemp = w.nextTemp := by
  intro fuel
  induction fuel with
  | zero => intro w; simp [copyRounds]
  | succ fuel ih =>
    intro w
    obtain ⟨h1, h2, h3, h4⟩ := runRound_meta h copies w
    by_cases hc : (runRound copies cf w).1 = true
    · simp [copyRounds, hc, h1, h2, h3, h4]
    · obtain ⟨g1, g2, g3, g4⟩ := ih (runRound copies cf w).2
      simp only [copyRounds, hc, Bool.false_eq_true, if_false]
      exact ⟨by rw [g1, h1], by rw [g2, h2], by rw [g3, h3], by rw [g4, h4]⟩

theorem copyRounds_files_frame {cf : CopyFunction} (hcf : WritesOnlyDest cf)
    (copies : List (DbPath × DbPath)) (p : DbPath) (hp : ∀ cp ∈ copies, cp.2 ≠ p) :
    ∀ (fuel : Nat) (w : World),
      lookupFile p ((copyRounds copies cf fuel w).2.1).files = lookupFile p w.files := by
  intro fuel
  induction fuel with
  | zero => intro w; simp [copyRounds]
  | succ fuel ih =>
    intro w
    have hr := runRound_files_frame hcf copies w p hp
    by_cases hc : (runRound copies cf w).1 = true
    · simpa [copyRounds, hc] using hr
    · simp only [copyRounds, hc, Bool.false_eq_true, if_false]
      rw [ih (runRound copies cf w).2, hr]

/-- Staging with the built-in copier, started on an existing source in a
fresh staging directory, succeeds in one clean round; it leaves the staged
primary file holding the source's content, touches no file outside the
staging directory, and neither opens connections nor changes directories
or counters. -/
theorem copy_all_files_atomic (w : World) (source : DbPath) (td : FsName)
    (retry : Int) (c : Nat)
    (hsrc : lookupFile source w.files = some c)
    (hdir : td ∈ w.dirs)
    (hR : 0 ≤ retry) :
    ∃ w1,
      copy_all_files
          ((glob_database_files source.name (dirListing source.dir w.files)).map
            (fun n => DbPath.mk source.dir n))
          td atomic_copy_fs retry w = Except.ok (true, w1) ∧
        w1.conns = w.conns ∧ w1.dirs = w.dirs ∧ w1.nextConn = w.nextConn ∧
        w1.nextTemp = w.nextTemp ∧
        lookupFile (DbPath.mk td source.name) w1.files = some c ∧
        (∀ p : DbPath, p.dir ≠ td → lookupFile p w1.files = lookupFile p w.files) := by
  have hfuel : (retry + 1).toNat = retry.toNat + 1 := by omega
  simp only [copy_all_files, if_pos hdir, hfuel]
  rw [copyRounds_clean_first atomic_copy_fs_alwaysClean]
  set copies :=
    ((glob_database_files source.name (dirListing source.dir w.files)).map
      (fun n => DbPath.mk source.dir n)).map
        (fun s => (s, DbPath.mk td s.name)) with hcopies
  have hcopies2 :
      copies = (DbPath.mk source.dir source.name, DbPath.mk td source.name) ::
        ((dirListing source.dir w.files).filter
          (fun n => (source.name ++ ['-']).isPrefixOf n && !(shmSuffix.isSuffixOf n))).map
          (fun n => (DbPath.mk source.dir n, DbPath.mk td n)) := by
    rw [hcopies]
    simp [glob_database_files, List.map_map, Function.comp]
  refine ⟨(runRound copies atomic_copy_fs w).2, rfl, ?_, ?_, ?_, ?_, ?_, ?_⟩
  · exact (runRound_meta atomic_copy_fs_preservesMeta copies w).1
  · exact (runRound_meta atomic_copy_fs_preservesMeta copies w).2.1
  · exact (runRound_meta atomic_copy_fs_preservesMeta copies w).2.2.1
  · exact (runRound_meta atomic_copy_fs_preservesMeta copies w).2.2.2
  · rw [hcopies2]
    refine runRound_stages_head ?_ ?_
    · simpa using hsrc
    · intro cp hcp
      obtain ⟨n, hn, hcpEq⟩ := List.mem_map.mp hcp
      have hpred := List.of_mem_filter hn
      rw [Bool.and_eq_true] at hpred
      have hpre : (source.name ++ ['-']).isPrefixOf n = true := hpred.1
      have hne := glob_match_ne hpre
      rw [← hcpEq]
      simp [DbPath.mk.injEq, hne]
  · intro p hp
    refine runRound_files_frame atomic_copy_fs_writesOnlyDest copies w p ?_
    intro cp hcp
    rw [hcopies] at hcp
    obtain ⟨s, hs, hcpEq⟩ := List.mem_map.mp hcp
    rw [← hcpEq]
    intro hEq
    exact hp (by rw [← hEq])

/-- The glob pattern `primary + "-*"` matches a name exactly when the name
is the primary name plus a dash-led suffix. -/
theorem glob_pattern_iff (primary x : FsName) :
    (primary ++ ['-']).isPrefixOf x = true ↔ ∃ suffix, x = primary ++ '-' :: suffix := by
  rw [List.isPrefixOf_iff_prefix]
  constructor
  · rintro ⟨t, ht⟩
    exact ⟨t, by rw [← ht]; simp⟩
  · rintro ⟨t, ht⟩
    exact ⟨t, by rw [ht]; simp⟩

/-- `endswith("-shm")`, as a decomposition. -/
theorem ends_shm_iff (x : FsName) :
    shmSuffix.isSuffixOf x = true ↔ ∃ stem, x = stem ++ shmSuffix := by
  rw [List.isSuffixOf_iff_suffix]
  constructor
  · rintro ⟨t, ht⟩
    exact ⟨t, ht.symm⟩
  · rintro ⟨t, ht⟩
    exact ⟨t, ht.symm⟩

/-- C6: `glob_database_files` returns the primary path first, followed by
exactly those sibling files whose name is the primary name plus a
dash-led suffix, excluding names ending in `-shm`; on the listing
`db, db-wal, db-shm, db-journal` with primary `db` the result is exactly
`db, db-wal, db-journal`. -/
theorem claim_C6_glob_enumerator :
    (∀ (primary : FsName) (listing : List FsName),
      (glob_database_files primary listing).head? = some primary) ∧
    (∀ (primary : FsName) (listing : List FsName) (x : FsName),
      x ∈ glob_database_files primary listing ↔
        (x = primary ∨ (x ∈ listing ∧ (∃ suffix, x = primary ++ '-' :: suffix) ∧
          ¬∃ stem, x = stem ++ shmSuffix))) ∧
    glob_database_files ['d', 'b']
        [['d', 'b'], ['d', 'b', '-', 'w', 'a', 'l'], ['d', 'b', '-', 's', 'h', 'm'],
          ['d', 'b', '-', 'j', 'o', 'u', 'r', 'n', 'a', 'l']] =
      [['d', 'b'], ['d', 'b', '-', 'w', 'a', 'l'],
        ['d', 'b', '-', 'j', 'o', 'u', 'r', 'n', 'a', 'l']] := by
  refine ⟨fun primary listing => rfl, ?_, by decide⟩
  intro primary listing x
  simp only [glob_database_files, List.mem_cons, List.mem_filter, Bool.and_eq_true,
    Bool.not_eq_true', ← glob_pattern_iff, ← ends_shm_iff]
  constructor
  · rintro (h | ⟨hmem, hpre, hsuf⟩)
    · exact Or.inl h
    · exact Or.inr ⟨hmem, hpre, by simp [hsuf]⟩
  · rintro (h | ⟨hmem, hpre, hsuf⟩)
    · exact Or.inl h
    · refine Or.inr ⟨hmem, hpre, ?_⟩
      cases h : shmSuffix.isSuffixOf x with
      | false => rfl
      | true => exact absurd h hsuf

/-- C2: when an `atomic_copy` call returns, it does so at a comparison that
reported the source and destination equal, every earlier comparison in the
call reported them unequal, and the returned boolean is `true` exactly when
the very first comparison already reported them equal (a clean single-shot
copy). -/
theorem claim_C2_atomic_copy_return (cmp : Nat → Bool) (fuel : Nat) (r : Bool)
    (h : atomic_copy cmp fuel = some r) :
    ∃ k, k < fuel ∧ cmp k = true ∧ (∀ j, j < k → cmp j = false) ∧
      (r = true ↔ cmp 0 = true) := by
  obtain ⟨k, hk, hck, hprev, hr⟩ := atomic_copy_spec h
  refine ⟨k, hk, hck, hprev, ?_⟩
  subst hr
  constructor
  · intro h0
    have hk0 : k = 0 := by simpa using h0
    rw [← hk0]
    exact hck
  · intro h0
    have hk0 : k = 0 := by
      by_contra hne
      have := hprev 0 (by omega)
      rw [h0] at this
      cases this
    simp [hk0]

theorem claim_C2_atomic_copy_return_witness :
    ∃ k, k < 5 ∧ (fun i => decide (i = 1)) k = true ∧
      (∀ j, j < k → (fun i => decide (i = 1)) j = false) ∧
      ((false = true) ↔ (fun i => decide (i = 1)) 0 = true) :=
  claim_C2_atomic_copy_return (fun i => decide (i = 1)) 5 false (by decide)

/-- In strict mode, a copy function that never reports clean drives
`sqlite_backup` into the staging-exhaustion error. -/
theorem sqlite_backup_strict_exhaust (w : World) (source : DbPath)
    (destination : Option DbPath) (wal : Bool) (N : Int) (cf : CopyFunction)
    (eng : Engine) (c : Nat)
    (hcf : AlwaysDirty cf)
    (hsrc : lookupFile source w.files = some c)
    (hdest : destination ≠ some source) :
    ∃ w', sqlite_backup source destination wal true N true cf eng w =
      Except.error (Err.sqliteBackupError stagingExhaustedMsg, w') := by
  have hne :
      ((glob_database_files source.name (dirListing source.dir w.files)).map
        (fun n => DbPath.mk source.dir n)).map
          (fun s => (s, DbPath.mk (tempDirName w.nextTemp) s.name)) ≠ [] := by
    simp [glob_database_files]
  have hcr := (copyRounds_alwaysDirty hcf _ hne (N + 1).toNat
    { w with dirs := tempDirName w.nextTemp :: w.dirs, nextTemp := w.nextTemp + 1 }).1
  refine ⟨cleanupTd (tempDirName w.nextTemp)
    (copyRounds
      (((glob_database_files source.name (dirListing source.dir w.files)).map
        (fun n => DbPath.mk source.dir n)).map
          (fun s => (s, DbPath.mk (tempDirName w.nextTemp) s.name)))
      cf (N + 1).toNat
      { w with dirs := tempDirName w.nextTemp :: w.dirs, nextTemp := w.nextTemp + 1 }).2.1, ?_⟩
  simp only [sqlite_backup, hsrc, if_neg hdest, sqliteBackupBody, copy_all_files]
  rw [if_pos (List.mem_cons_self _ _)]
  simp only [hcr]
  rfl

/-- C1: the stager's loop runs at most `fuel` rounds (so at most `N + 1`
for retry budget `N ≥ 0`); a round's cleanliness is the conjunction of the
copy function's reports over all (source, staged-destination) pairs; the
loop returns `true` exactly at the first clean round (all earlier rounds
dirty); it returns `false` only after running every available round; with
an always-dirty copy function it runs exactly `N + 1` rounds; and in
strict mode `sqlite_backup` with such a copy function raises the
staging-exhaustion error. -/
theorem claim_C1_stager_rounds :
    (∀ (copies : List (DbPath × DbPath)) (cf : CopyFunction) (fuel : Nat) (w : World),
      (copyRounds copies cf fuel w).2.2 ≤ fuel) ∧
    (∀ (copies : List (DbPath × DbPath)) (cf : CopyFunction) (w : World),
      roundClean copies cf w = (roundResults copies cf w).all (fun b => b)) ∧
    (∀ (copies : List (DbPath × DbPath)) (cf : CopyFunction) (fuel : Nat)
        (w w' : World) (n : Nat),
      copyRounds copies cf fuel w = (true, w', n) →
      ∃ k, n = k + 1 ∧ k < fuel ∧
        roundClean copies cf (afterRounds copies cf w k) = true ∧
        (∀ j, j < k → roundClean copies cf (afterRounds copies cf w j) = false)) ∧
    (∀ (copies : List (DbPath × DbPath)) (cf : CopyFunction) (fuel : Nat)
        (w w' : World) (n : Nat),
      copyRounds copies cf fuel w = (false, w', n) →
      n = fuel ∧ ∀ j, j < fuel → roundClean copies cf (afterRounds copies cf w j) = false) ∧
    (∀ (copies : List (DbPath × DbPath)) (cf : CopyFunction) (N : Int) (w : World),
      AlwaysDirty cf → copies ≠ [] → 0 ≤ N →
      (copyRounds copies cf (N + 1).toNat w).1 = false ∧
        (copyRounds copies cf (N + 1).toNat w).2.2 = N.toNat + 1) ∧
    (∀ (w : World) (source : DbPath) (destination : Option DbPath) (wal : Bool)
        (N : Int) (cf : CopyFunction) (eng : Engine) (c : Nat),
      AlwaysDirty cf →
      lookupFile source w.files = some c →
      destination ≠ some source →
      ∃ w', sqlite_backup source destination wal true N true cf eng w =
        Except.error (Err.sqliteBackupError stagingExhaustedMsg, w')) := by
  refine ⟨copyRounds_count_le, ?_, ?_, ?_, ?_, ?_⟩
  · intro copies cf w
    exact runRound_fst_eq_all copies cf w
  · intro copies cf fuel w w' n h
    obtain ⟨k, h1, h2, h3, h4, _⟩ := copyRounds_true_spec copies cf fuel w w' n h
    exact ⟨k, h1, h2, h3, h4⟩
  · intro copies cf fuel w w' n h
    obtain ⟨h1, h2, _⟩ := copyRounds_false_spec copies cf fuel w w' n h
    exact ⟨h1, h2⟩
  · intro copies cf N w hcf hne hN
    have hfuel : (N + 1).toNat = N.toNat + 1 := by omega
    obtain ⟨h1, h2⟩ := copyRounds_alwaysDirty hcf copies hne (N + 1).toNat w
    exact ⟨h1, by omega⟩
  · intro w source destination wal N cf eng c hcf hsrc hdest
    exact sqlite_backup_strict_exhaust w source destination wal N cf eng c hcf hsrc hdest

/-- A copy function that always reports a dirty copy and changes nothing. -/
def dirtyCopyFn : CopyFunction := fun _ _ w => (false, w)

/-- A one-file world used as a concrete witness input. -/
def wExample : World :=
  World.mk [(DbPath.mk ['d'] ['d', 'b'], 5)] [] [] 0 0

theorem claim_C1_stager_rounds_witness :
    ((copyRounds [] dirtyCopyFn 4 wExample).2.2 ≤ 4) ∧
    ((copyRounds [(DbPath.mk ['d'] ['d', 'b'], DbPath.mk ['t'] ['d', 'b'])]
        dirtyCopyFn ((2 : Int) + 1).toNat wExample).1 = false ∧
      (copyRounds [(DbPath.mk ['d'] ['d', 'b'], DbPath.mk ['t'] ['d', 'b'])]
        dirtyCopyFn ((2 : Int) + 1).toNat wExample).2.2 = (2 : Int).toNat + 1) ∧
    (∃ w', sqlite_backup (DbPath.mk ['d'] ['d', 'b']) none true true 2 true
        dirtyCopyFn (Engine.mk none none) wExample =
      Except.error (Err.sqliteBackupError stagingExhaustedMsg, w')) :=
  ⟨claim_C1_stager_rounds.1 _ dirtyCopyFn 4 wExample,
    claim_C1_stager_rounds.2.2.2.2.1 _ dirtyCopyFn 2 wExample
      (fun _ _ _ => rfl) (by simp) (by norm_num),
    claim_C1_stager_rounds.2.2.2.2.2 wExample (DbPath.mk ['d'] ['d', 'b']) none true 2
      dirtyCopyFn (Engine.mk none none) 5 (fun _ _ _ => rfl) (by decide) (by simp)⟩

/-- C9: under the precondition that the staging destination is an existing
directory, `copy_all_files` always returns a boolean result: its
`ValueError` branch is unreachable and cleanliness is reported only through
the returned boolean. -/
theorem claim_C9_stager_no_raise (source_files : List DbPath) (temporary_dest : FsName)
    (copy_function : CopyFunction) (retry : Int) (w : World)
    (hdir : temporary_dest ∈ w.dirs) :
    ∃ b w', copy_all_files source_files temporary_dest copy_function retry w =
      Except.ok (b, w') := by
  simp only [copy_all_files, if_pos hdir]
  exact ⟨_, _, rfl⟩

theorem claim_C9_stager_no_raise_witness :
    ∃ b w', copy_all_files [DbPath.mk ['d'] ['d', 'b']] ['t'] atomic_copy_fs 100
        (World.mk [(DbPath.mk ['d'] ['d', 'b'], 5)] [['t']] [] 0 0) =
      Except.ok (b, w') :=
  claim_C9_stager_no_raise [DbPath.mk ['d'] ['d', 'b']] ['t'] atomic_copy_fs 100
    (World.mk [(DbPath.mk ['d'] ['d', 'b'], 5)] [['t']] [] 0 0) (by decide)

/-- C3 counterexample: against a source that changes on every attempt
(every comparison reports unequal), a single `atomic_copy` call has still
not returned after `copy_retry + 1` attempts with the default ceiling of
100, nor after a thousand times that many: the outer retry ceiling does
not cap the attempts made inside one call. -/
theorem claim_C3_counterexample :
    atomic_copy (fun _ => false) (COPY_RETRY_DEFAULT.toNat + 1) = none ∧
    atomic_copy (fun _ => false) ((COPY_RETRY_DEFAULT.toNat + 1) * 1000) = none := by
  constructor
  · rw [atomic_copy_none_iff]
    intro k _
    rfl
  · rw [atomic_copy_none_iff]
    intro k _
    rfl

/-- C3 (amended): a single `atomic_copy` call terminates exactly when some
comparison reports equal — it has not returned within `fuel` attempts
precisely when all `fuel` comparisons reported unequal, and when it
returns it is at the first equal comparison — so the attempts inside one
call are not bounded by the caller's retry ceiling; what the outer
`copy_retry` ceiling bounds is the number of staging rounds, i.e. of
copy-function calls per file. -/
theorem claim_C3_inner_loop_unbounded :
    (∀ (cmp : Nat → Bool) (fuel : Nat),
      atomic_copy cmp fuel = none ↔ ∀ k, k < fuel → cmp k = false) ∧
    (∀ (cmp : Nat → Bool) (fuel : Nat) (r : Bool),
      atomic_copy cmp fuel = some r →
      ∃ k, k < fuel ∧ cmp k = true ∧ ∀ j, j < k → cmp j = false) ∧
    (∀ (copies : List (DbPath × DbPath)) (cf : CopyFunction) (fuel : Nat) (w : World),
      (copyRounds copies cf fuel w).2.2 ≤ fuel) := by
  refine ⟨?_, ?_, copyRounds_count_le⟩
  · intro cmp fuel
    exact atomic_copy_none_iff
  · intro cmp fuel r h
    obtain ⟨k, h1, h2, h3, _⟩ := atomic_copy_spec h
    exact ⟨k, h1, h2, h3⟩

theorem copy_all_files_files_frame {cf : CopyFunction} (hcf : WritesOnlyDest cf)
    (srcs : List DbPath) (td : FsName) (retry : Int) (w : World) (p : DbPath)
    (hp : p.dir ≠ td) :
    lookupFile p (resW (copy_all_files srcs td cf retry w)).files = lookupFile p w.files := by
  unfold copy_all_files
  by_cases hdir : td ∈ w.dirs
  · rw [if_pos hdir]
    refine copyRounds_files_frame hcf _ p ?_ _ w
    intro cp hcp
    obtain ⟨s, hs, hcpEq⟩ := List.mem_map.mp hcp
    rw [← hcpEq]
    intro hEq
    exact hp (by rw [← hEq])
  · rw [if_neg hdir]
    rfl

theorem copy_all_files_meta {cf : CopyFunction} (hcf : PreservesMeta cf)
    (srcs : List DbPath) (td : FsName) (retry : Int) (w : World) :
    (resW (copy_all_files srcs td cf retry w)).conns = w.conns ∧
    (resW (copy_all_files srcs td cf retry w)).dirs = w.dirs ∧
    (resW (copy_all_files srcs td cf retry w)).nextConn = w.nextConn ∧
    (resW (copy_all_files srcs td cf retry w)).nextTemp = w.nextTemp := by
  unfold copy_all_files
  by_cases hdir : td ∈ w.dirs
  · rw [if_pos hdir]
    exact copyRounds_meta hcf _ _ w
  · rw [if_neg hdir]
    exact ⟨rfl, rfl, rfl, rfl⟩

theorem backupAndFinalize_files (destination : Option DbPath) (wal : Bool)
    (eng : Engine) (copy_from : DbPath) (w1 : World) (p : DbPath)
    (hd : ∀ d, destination = some d → p ≠ d) :
    lookupFile p (resW (backupAndFinalize destination wal eng copy_from w1)).files =
      lookupFile p w1.files := by
  unfold backupAndFinalize
  cases destination with
  | none =>
    cases eng.backupErr <;> simp [openConn, writeBackup, closeConn, resW]
  | some d =>
    have hpd : p ≠ d := hd d rfl
    cases eng.backupErr with
    | some m => simp [openConn, resW]
    | none =>
      cases wal with
      | false =>
        simp [openConn, writeBackup, closeConn, resW, lookupFile_setFile_ne _ _ hpd]
      | true =>
        cases eng.checkpointErr <;>
          simp [openConn, writeBackup, closeConn, resW, lookupFile_setFile_ne _ _ hpd]

theorem backupAndFinalize_dirs (destination : Option DbPath) (wal : Bool)
    (eng : Engine) (copy_from : DbPath) (w1 : World) :
    (resW (backupAndFinalize destination wal eng copy_from w1)).dirs = w1.dirs := by
  unfold backupAndFinalize
  cases destination with
  | none => cases eng.backupErr <;> simp [openConn, writeBackup, closeConn, resW]
  | some d =>
    cases eng.backupErr with
    | some m => simp [openConn, resW]
    | none =>
      cases wal with
      | false => simp [openConn, writeBackup, closeConn, resW]
      | true => cases eng.checkpointErr <;> simp [openConn, writeBackup, closeConn, resW]

theorem conn_mapped_id (f : Conn → Conn) (hid : ∀ c, (f c).id = c.id)
    {cn : Conn} {cs : List Conn} (h : cn ∈ cs.map f) : ∃ c0 ∈ cs, cn.id = c0.id := by
  obtain ⟨c0, hc0, hcn⟩ := List.mem_map.mp h
  exact ⟨c0, hc0, by rw [← hcn, hid c0]⟩

theorem backupAndFinalize_ok_conns (destination : Option DbPath) (wal : Bool)
    (eng : Engine) (copy_from : DbPath) (w1 : World) (tid : Nat) (w2 : World)
    (h : backupAndFinalize destination wal eng copy_from w1 = Except.ok (tid, w2)) :
    ∀ cn ∈ w2.conns, (∀ c0 ∈ w1.conns, c0.id ≠ cn.id) →
      (cn.id = tid ∨ cn.isOpen = false) := by
  cases destination with
  | none =>
    cases hbe : eng.backupErr with
    | some m => simp [backupAndFinalize, hbe] at h
    | none =>
      simp only [backupAndFinalize, hbe, openConn, writeBackup, closeConn,
        Except.ok.injEq, Prod.mk.injEq] at h
      obtain ⟨htid, hw2⟩ := h
      subst htid
      subst hw2
      intro cn hcn hfresh
      simp only [List.map_cons, List.mem_cons, List.map_map] at hcn
      rcases hcn with h1 | h2 | h3
      · subst h1
        simp
      · subst h2
        simp
      · obtain ⟨c0, hc0, hcnid⟩ :=
          conn_mapped_id _
            (fun c => by simp only [Function.comp]; split <;> split <;> rfl) h3
        exact absurd hcnid.symm (hfresh c0 hc0)
  | some d =>
    cases hbe : eng.backupErr with
    | some m => simp [backupAndFinalize, hbe] at h
    | none =>
      have hcont :
          ∀ (hh : (Except.ok (w1.nextConn,
              closeConn (w1.nextConn + 1)
                (writeBackup (ConnTarget.file d) w1.nextConn
                  ((lookupFile copy_from w1.files).getD 0)
                  ((openConn (ConnTarget.file copy_from) (openConn (ConnTarget.file d) w1).2).2))) :
                Except (Err × World) (Nat × World))
            = Except.ok (tid, w2)),
            ∀ cn ∈ w2.conns, (∀ c0 ∈ w1.conns, c0.id ≠ cn.id) →
              (cn.id = tid ∨ cn.isOpen = false) := by
        intro hh
        simp only [openConn, writeBackup, closeConn, Except.ok.injEq, Prod.mk.injEq] at hh
        obtain ⟨htid, hw2⟩ := hh
        subst htid
        subst hw2
        intro cn hcn hfresh
        simp only [List.map_cons, List.mem_cons] at hcn
        rcases hcn with h1 | h2 | h3
        · subst h1
          simp
        · subst h2
          simp
        · obtain ⟨c0, hc0, hcnid⟩ :=
            conn_mapped_id _ (fun c => by split <;> rfl) h3
          exact absurd hcnid.symm (hfresh c0 hc0)
      cases wal with
      | false =>
        simp only [backupAndFinalize, hbe] at h
        exact hcont h
      | true =>
        cases hce : eng.checkpointErr with
        | some m => simp [backupAndFinalize, hbe, hce] at h
        | none =>
          simp only [backupAndFinalize, hbe, hce] at h
          exact hcont h

theorem sqliteBackupBody_files_frame {cf : CopyFunction} (hcf : WritesOnlyDest cf)
    (source : DbPath) (destination : Option DbPath) (wal tmp : Bool) (retry : Int)
    (strict : Bool) (eng : Engine) (td : FsName) (w : World) (p : DbPath)
    (hp : p.dir ≠ td)
    (hd : ∀ d, destination = some d → p ≠ d) :
    lookupFile p
        (resW (sqliteBackupBody source destination wal tmp retry strict cf eng td w)).files =
      lookupFile p w.files := by
  unfold sqliteBackupBody
  cases tmp with
  | false =>
    exact backupAndFinalize_files destination wal eng source w p hd
  | true =>
    simp only [if_true]
    cases hca : copy_all_files
        ((glob_database_files source.name (dirListing source.dir w.files)).map
          (fun n => DbPath.mk source.dir n)) td cf retry w with
    | error e =>
      have hfr := copy_all_files_files_frame hcf
        ((glob_database_files source.name (dirListing source.dir w.files)).map
          (fun n => DbPath.mk source.dir n)) td retry w p hp
      rw [hca] at hfr
      exact hfr
    | ok bw =>
      obtain ⟨b, w1⟩ := bw
      have hfr := copy_all_files_files_frame hcf
        ((glob_database_files source.name (dirListing source.dir w.files)).map
          (fun n => DbPath.mk source.dir n)) td retry w p hp
      rw [hca] at hfr
      by_cases hsb : (!b && strict) = true
      · simp only [hsb, if_true]
        exact hfr
      · simp only [hsb, if_false, Bool.false_eq_true]
        cases hlk : lookupFile (DbPath.mk td source.name) w1.files with
        | none => exact hfr
        | some v =>
          rw [backupAndFinalize_files destination wal eng _ w1 p hd]
          exact hfr

theorem sqliteBackupBody_dirs {cf : CopyFunction} (hcf : PreservesMeta cf)
    (source : DbPath) (destination : Option DbPath) (wal tmp : Bool) (retry : Int)
    (strict : Bool) (eng : Engine) (td : FsName) (w : World) :
    (resW (sqliteBackupBody source destination wal tmp retry strict cf eng td w)).dirs =
      w.dirs := by
  unfold sqliteBackupBody
  cases tmp with
  | false =>
    exact backupAndFinalize_dirs destination wal eng source w
  | true =>
    simp only [if_true]
    cases hca : copy_all_files
        ((glob_database_files source.name (dirListing source.dir w.files)).map
          (fun n => DbPath.mk source.dir n)) td cf retry w with
    | error e =>
      have hm := (copy_all_files_meta hcf
        ((glob_database_files source.name (dirListing source.dir w.files)).map
          (fun n => DbPath.mk source.dir n)) td retry w).2.1
      rw [hca] at hm
      exact hm
    | ok bw =>
      obtain ⟨b, w1⟩ := bw
      have hm := (copy_all_files_meta hcf
        ((glob_database_files source.name (dirListing source.dir w.files)).map
          (fun n => DbPath.mk source.dir n)) td retry w).2.1
      rw [hca] at hm
      by_cases hsb : (!b && strict) = true
      · simp only [hsb, if_true]
        exact hm
      · simp only [hsb, if_false, Bool.false_eq_true]
        cases hlk : lookupFile (DbPath.mk td source.name) w1.files with
        | none => exact hm
        | some v =>
          rw [backupAndFinalize_dirs destination wal eng _ w1]
          exact hm

theorem sqliteBackupBody_ok_conns {cf : CopyFunction} (hcf : PreservesMeta cf)
    (source : DbPath) (destination : Option DbPath) (wal tmp : Bool) (retry : Int)
    (strict : Bool) (eng : Engine) (td : FsName) (w : World) (tid : Nat) (w2 : World)
    (h : sqliteBackupBody source destination wal tmp retry strict cf eng td w =
      Except.ok (tid, w2)) :
    ∀ cn ∈ w2.conns, (∀ c0 ∈ w.conns, c0.id ≠ cn.id) →
      (cn.id = tid ∨ cn.isOpen = false) := by
  unfold sqliteBackupBody at h
  cases tmp with
  | false =>
    exact backupAndFinalize_ok_conns destination wal eng source w tid w2 h
  | true =>
    simp only [if_true] at h
    cases hca : copy_all_files
        ((glob_database_files source.name (dirListing source.dir w.files)).map
          (fun n => DbPath.mk source.dir n)) td cf retry w with
    | error e =>
      rw [hca] at h
      cases h
    | ok bw =>
      obtain ⟨b, w1⟩ := bw
      have hm := (copy_all_files_meta hcf
        ((glob_database_files source.name (dirListing source.dir w.files)).map
          (fun n => DbPath.mk source.dir n)) td retry w).1
      rw [hca] at hm
      rw [hca] at h
      by_cases hsb : (!b && strict) = true
      · simp only [hsb, if_true] at h
        cases h
      · simp only [hsb, if_false, Bool.false_eq_true] at h
        cases hlk : lookupFile (DbPath.mk td source.name) w1.files with
        | none =>
          rw [hlk] at h
          cases h
        | some v =>
          rw [hlk] at h
          have h2 : backupAndFinalize destination wal eng (DbPath.mk td source.name) w1 =
              Except.ok (tid, w2) := h
          have hm2 : w1.conns = w.conns := hm
          intro cn hcn hfresh
          refine backupAndFinalize_ok_conns destination wal eng _ w1 tid w2 h2 cn hcn ?_
          rw [hm2]
          exact hfresh

/-- C7: a missing source fails with the not-found error carrying the source
path, and an existing source equal to the destination fails with the
configuration error; both failures return the world exactly as it was — no
staging directory has been created and no file copied. -/
theorem claim_C7_early_failures (w : World) (source : DbPath)
    (destination : Option DbPath) (wal tmp : Bool) (retry : Int) (strict : Bool)
    (cf : CopyFunction) (eng : Engine) :
    (lookupFile source w.files = none →
      sqlite_backup source destination wal tmp retry strict cf eng w =
        Except.error (Err.fileNotFound source, w)) ∧
    (lookupFile source w.files ≠ none → destination = some source →
      sqlite_backup source destination wal tmp retry strict cf eng w =
        Except.error (Err.valueError sameMsg, w)) := by
  constructor
  · intro h
    simp [sqlite_backup, h]
  · intro h hd
    simp [sqlite_backup, h, hd]

theorem claim_C7_early_failures_witness :
    (sqlite_backup (DbPath.mk ['d'] ['x']) none true true 100 true atomic_copy_fs
        (Engine.mk none none) wExample =
      Except.error (Err.fileNotFound (DbPath.mk ['d'] ['x']), wExample)) ∧
    (sqlite_backup (DbPath.mk ['d'] ['d', 'b']) (some (DbPath.mk ['d'] ['d', 'b']))
        true true 100 true atomic_copy_fs (Engine.mk none none) wExample =
      Except.error (Err.valueError sameMsg, wExample)) :=
  ⟨(claim_C7_early_failures wExample (DbPath.mk ['d'] ['x']) none true true 100 true
      atomic_copy_fs (Engine.mk none none)).1 (by decide),
    (claim_C7_early_failures wExample (DbPath.mk ['d'] ['d', 'b'])
      (some (DbPath.mk ['d'] ['d', 'b'])) true true 100 true atomic_copy_fs
      (Engine.mk none none)).2 (by decide) rfl⟩

/-- C8 (amended): on every execution path of `sqlite_backup` — success or
failure, staging or skip-staging — no file of the source's database file
set (the primary file and its enumerated sidecars) is written or removed,
provided the copy function writes only its staged destination (as the
built-in one does) and the explicitly chosen destination path is not itself
one of the source's database files.  Without the last proviso the claim
fails: see the counterexample. -/
theorem claim_C8_source_read_only (w : World) (source : DbPath)
    (destination : Option DbPath) (wal tmp : Bool) (retry : Int) (strict : Bool)
    (cf : CopyFunction) (eng : Engine)
    (hcf : WritesOnlyDest cf)
    (hfresh : source.dir ≠ tempDirName w.nextTemp)
    (hdest : ∀ n ∈ glob_database_files source.name (dirListing source.dir w.files),
      destination ≠ some (DbPath.mk source.dir n)) :
    ∀ n ∈ glob_database_files source.name (dirListing source.dir w.files),
      lookupFile (DbPath.mk source.dir n)
          (resW (sqlite_backup source destination wal tmp retry strict cf eng w)).files =
        lookupFile (DbPath.mk source.dir n) w.files := by
  intro n hn
  have hd : ∀ d, destination = some d → DbPath.mk source.dir n ≠ d := by
    intro d hdd hEq
    exact hdest n hn (by rw [hdd, hEq])
  by_cases h1 : lookupFile source w.files = none
  · simp [sqlite_backup, h1, resW]
  · by_cases h2 : destination = some source
    · simp [sqlite_backup, h1, h2, resW]
    · simp only [sqlite_backup, h1, if_neg h2, if_false]
      have hbody := sqliteBackupBody_files_frame hcf source destination wal tmp retry
        strict eng (tempDirName w.nextTemp)
        { w with dirs := tempDirName w.nextTemp :: w.dirs, nextTemp := w.nextTemp + 1 }
        (DbPath.mk source.dir n) hfresh hd
      cases hb : sqliteBackupBody source destination wal tmp retry strict cf eng
          (tempDirName w.nextTemp)
          { w with dirs := tempDirName w.nextTemp :: w.dirs, nextTemp := w.nextTemp + 1 } with
      | error e =>
        rw [hb] at hbody
        obtain ⟨err, we⟩ := e
        show lookupFile (DbPath.mk source.dir n) (cleanupTd (tempDirName w.nextTemp) we).files = _
        rw [cleanupTd]
        rw [lookupFile_filter_dir (DbPath.mk source.dir n) we.files hfresh]
        exact hbody
      | ok tw =>
        obtain ⟨tid, w1⟩ := tw
        rw [hb] at hbody
        cases destination with
        | none =>
          show lookupFile (DbPath.mk source.dir n)
            (cleanupTd (tempDirName w.nextTemp) w1).files = _
          rw [cleanupTd]
          rw [lookupFile_filter_dir (DbPath.mk source.dir n) w1.files hfresh]
          exact hbody
        | some d =>
          show lookupFile (DbPath.mk source.dir n)
            (closeConn tid (cleanupTd (tempDirName w.nextTemp) w1)).files = _
          rw [closeConn, cleanupTd]
          rw [lookupFile_filter_dir (DbPath.mk source.dir n) w1.files hfresh]
          exact hbody

/-- C4 (amended): on every exit path of `sqlite_backup` — success or any
failure — the temporary staging directory is removed (the directory set is
restored exactly); and on every successful exit each connection opened by
the call is closed, except the returned in-memory connection.  The original
claim's assertion that this closure also holds when an engine error
propagates from backup or checkpoint is false: see the counterexample,
where the source and destination connections remain open on that path. -/
theorem claim_C4_cleanup_guarantee (w : World) (source : DbPath)
    (destination : Option DbPath) (wal tmp : Bool) (retry : Int) (strict : Bool)
    (cf : CopyFunction) (eng : Engine)
    (hcf : PreservesMeta cf) :
    ((resW (sqlite_backup source destination wal tmp retry strict cf eng w)).dirs = w.dirs) ∧
    (∀ ret w', sqlite_backup source destination wal tmp retry strict cf eng w =
        Except.ok (ret, w') →
      ∀ cn ∈ w'.conns, (∀ c0 ∈ w.conns, c0.id ≠ cn.id) →
        (ret = some cn.id ∨ cn.isOpen = false)) := by
  by_cases h1 : lookupFile source w.files = none
  · constructor
    · simp [sqlite_backup, h1, resW]
    · intro ret w' hok
      simp [sqlite_backup, h1] at hok
  · by_cases h2 : destination = some source
    · constructor
      · simp [sqlite_backup, h1, h2, resW]
      · intro ret w' hok
        simp [sqlite_backup, h1, h2] at hok
    · have hbd := sqliteBackupBody_dirs hcf source destination wal tmp retry strict eng
        (tempDirName w.nextTemp)
        { w with dirs := tempDirName w.nextTemp :: w.dirs, nextTemp := w.nextTemp + 1 }
      cases hb : sqliteBackupBody source destination wal tmp retry strict cf eng
          (tempDirName w.nextTemp)
          { w with dirs := tempDirName w.nextTemp :: w.dirs, nextTemp := w.nextTemp + 1 } with
      | error e =>
        obtain ⟨err, we⟩ := e
        rw [hb] at hbd
        have hwe : we.dirs = tempDirName w.nextTemp :: w.dirs := hbd
        constructor
        · simp only [sqlite_backup, h1, if_neg h2, if_false]
          rw [hb]
          show (cleanupTd (tempDirName w.nextTemp) we).dirs = w.dirs
          rw [cleanupTd]
          show we.dirs.erase (tempDirName w.nextTemp) = w.dirs
          rw [hwe]
          simp
        · intro ret w' hok
          simp only [sqlite_backup, h1, if_neg h2, if_false] at hok
          rw [hb] at hok
          cases hok
      | ok tw =>
        obtain ⟨tid, w1⟩ := tw
        rw [hb] at hbd
        have hw1d : w1.dirs = tempDirName w.nextTemp :: w.dirs := hbd
        have hconns := sqliteBackupBody_ok_conns hcf source destination wal tmp retry
          strict eng (tempDirName w.nextTemp)
          { w with dirs := tempDirName w.nextTemp :: w.dirs, nextTemp := w.nextTemp + 1 }
          tid w1 hb
        constructor
        · simp only [sqlite_backup, h1, if_neg h2, if_false]
          rw [hb]
          cases destination with
          | none =>
            show (cleanupTd (tempDirName w.nextTemp) w1).dirs = w.dirs
            rw [cleanupTd]
            show w1.dirs.erase (tempDirName w.nextTemp) = w.dirs
            rw [hw1d]
            simp
          | some d =>
            show (closeConn tid (cleanupTd (tempDirName w.nextTemp) w1)).dirs = w.dirs
            rw [closeConn, cleanupTd]
            show w1.dirs.erase (tempDirName w.nextTemp) = w.dirs
            rw [hw1d]
            simp
        · intro ret w' hok
          simp only [sqlite_backup, h1, if_neg h2, if_false] at hok
          rw [hb] at hok
          cases destination with
          | none =>
            rw [Except.ok.injEq, Prod.mk.injEq] at hok
            obtain ⟨hret, hw'⟩ := hok
            intro cn hcn hfresh
            rw [← hw'] at hcn
            have hcn1 : cn ∈ w1.conns := hcn
            rcases hconns cn hcn1 hfresh with hid | hclosed
            · exact Or.inl (by rw [← hret, hid])
            · exact Or.inr hclosed
          | some d =>
            rw [Except.ok.injEq, Prod.mk.injEq] at hok
            obtain ⟨hret, hw'⟩ := hok
            intro cn hcn hfresh
            rw [← hw'] at hcn
            have hcn1 : cn ∈ (w1.conns.map
                (fun c => if c.id = tid then { c with isOpen := false } else c)) := hcn
            obtain ⟨orig, horig, hcneq⟩ := List.mem_map.mp hcn1
            by_cases hoid : orig.id = tid
            · rw [← hcneq]
              simp [hoid]
            · rw [if_neg hoid] at hcneq
              rw [← hcneq]
              rcases hconns orig horig (by rw [hcneq]; exact hfresh) with hid | hclosed
              · exact absurd hid hoid
              · exact Or.inr hclosed

/-- Whether an error result carries a connection still open. -/
def anyOpenOnError : Except (Err × World) (Option Nat × World) → Bool
  | Except.error (_, w) => w.conns.any (fun c => c.isOpen)
  | Except.ok _ => false

/-- C4 counterexample: starting from a world with no connections at all,
when the engine's backup step raises, `sqlite_backup` propagates the error
with connections it opened still open — the claimed closing of every
connection on every exit path fails on the engine-error path.  (The strict
run here stages cleanly; only the backup step fails.) -/
theorem claim_C4_counterexample :
    anyOpenOnError (sqlite_backup (DbPath.mk ['d'] ['d', 'b']) none true true 0 true
      atomic_copy_fs (Engine.mk (some ['i', 'o']) none) wExample) = true ∧
    wExample.conns = [] := by
  constructor
  · rfl
  · rfl

theorem claim_C4_cleanup_guarantee_witness :
    ((resW (sqlite_backup (DbPath.mk ['d'] ['d', 'b']) none true true 100 true
        atomic_copy_fs (Engine.mk none none) wExample)).dirs = wExample.dirs) ∧
    (∀ ret w', sqlite_backup (DbPath.mk ['d'] ['d', 'b']) none true true 100 true
        atomic_copy_fs (Engine.mk none none) wExample = Except.ok (ret, w') →
      ∀ cn ∈ w'.conns, (∀ c0 ∈ wExample.conns, c0.id ≠ cn.id) →
        (ret = some cn.id ∨ cn.isOpen = false)) :=
  claim_C4_cleanup_guarantee wExample (DbPath.mk ['d'] ['d', 'b']) none true true 100 true
    atomic_copy_fs (Engine.mk none none) atomic_copy_fs_preservesMeta

/-- A world holding a primary database file and an existing sibling whose
name matches the sidecar pattern of the primary. -/
def wC8 : World :=
  World.mk [(DbPath.mk ['d'] ['d', 'b'], 1), (DbPath.mk ['d'] ['d', 'b', '-', 'x'], 7)]
    [] [] 0 0

/-- C8 counterexample: `db-x` is enumerated as a sidecar of primary `db`,
yet choosing it as the backup destination makes the run overwrite it (its
content changes from 7 to the source's 1): with a destination inside the
source's file set, the claimed read-only property of the source file set
fails. -/
theorem claim_C8_counterexample :
    (['d', 'b', '-', 'x'] ∈ glob_database_files ['d', 'b'] (dirListing ['d'] wC8.files)) ∧
    lookupFile (DbPath.mk ['d'] ['d', 'b', '-', 'x']) wC8.files = some 7 ∧
    lookupFile (DbPath.mk ['d'] ['d', 'b', '-', 'x'])
        (resW (sqlite_backup (DbPath.mk ['d'] ['d', 'b'])
          (some (DbPath.mk ['d'] ['d', 'b', '-', 'x'])) true true 0 true atomic_copy_fs
          (Engine.mk none none) wC8)).files = some 1 := by
  refine ⟨by decide, by decide, by decide⟩

theorem claim_C8_source_read_only_witness :
    lookupFile (DbPath.mk ['d'] ['d', 'b'])
        (resW (sqlite_backup (DbPath.mk ['d'] ['d', 'b']) none true true 100 true
          atomic_copy_fs (Engine.mk none none) wExample)).files =
      lookupFile (DbPath.mk ['d'] ['d', 'b']) wExample.files :=
  claim_C8_source_read_only wExample (DbPath.mk ['d'] ['d', 'b']) none true true 100 true
    atomic_copy_fs (Engine.mk none none) atomic_copy_fs_writesOnlyDest (by decide)
    (fun n _ => by simp) ['d', 'b'] (by decide)

/-- A successful in-memory run: with the built-in copier, an existing
source, a non-negative retry budget and a non-failing engine,
`sqlite_backup` without a destination returns the identifier of a
connection that is open, in-memory, and holds the source's content, and
every other connection opened by the call is closed. -/
theorem sqlite_backup_memory_success (w : World) (source : DbPath) (wal : Bool)
    (N : Int) (strict : Bool) (eng : Engine) (c : Nat)
    (hsrc : lookupFile source w.files = some c)
    (hB : eng.backupErr = none)
    (hN : 0 ≤ N) :
    ∃ w', sqlite_backup source none wal true N strict atomic_copy_fs eng w =
        Except.ok (some w.nextConn, w') ∧
      Conn.mk w.nextConn ConnTarget.memory true c ∈ w'.conns ∧
      (∀ cn ∈ w'.conns, (∀ c0 ∈ w.conns, c0.id ≠ cn.id) →
        (cn.id = w.nextConn ∨ cn.isOpen = false)) := by
  have h1 : ¬(lookupFile source w.files = none) := by simp [hsrc]
  have h2 : ¬((none : Option DbPath) = some source) := by simp
  obtain ⟨w1, heq, hc1, hc2, hc3, hc4, hstage, hframe⟩ :=
    copy_all_files_atomic
      { w with dirs := tempDirName w.nextTemp :: w.dirs, nextTemp := w.nextTemp + 1 }
      source (tempDirName w.nextTemp) N c hsrc (List.mem_cons_self _ _) hN
  simp only [sqlite_backup, if_neg h1, if_neg h2, sqliteBackupBody, if_true]
  rw [heq]
  simp only [Bool.not_true, Bool.false_and, Bool.false_eq_true, if_false, hstage]
  simp only [backupAndFinalize, hB, openConn, writeBackup, closeConn, hstage,
    Option.getD_some]
  simp only [hc3]
  refine ⟨_, rfl, ?_, ?_⟩
  · simp [cleanupTd, Nat.succ_ne_self]
  · intro cn hcn hfresh
    simp only [cleanupTd, List.map_cons, List.mem_cons, List.map_map] at hcn
    rcases hcn with hh1 | hh2 | hh3
    · subst hh1
      simp [Nat.succ_ne_self]
    · subst hh2
      simp [Nat.succ_ne_self]
    · obtain ⟨c0, hcc0, hcnid⟩ :=
        conn_mapped_id _
          (fun cc => by simp only [Function.comp]; split <;> split <;> rfl) hh3
      have hcc0w : c0 ∈ w.conns := by
        have : c0 ∈ w1.conns := hcc0
        rw [hc1] at this
        exact this
      exact absurd hcnid.symm (hfresh c0 hcc0w)

/-- A successful file-destination run: with the built-in copier, an
existing source, a destination path different from the source and outside
the staging directory, a non-negative retry budget and a non-failing
engine, `sqlite_backup` returns nothing, leaves the destination file
holding the source's content, and every connection opened by the call is
closed. -/
theorem sqlite_backup_file_success (w : World) (source d : DbPath) (wal : Bool)
    (N : Int) (strict : Bool) (eng : Engine) (c : Nat)
    (hsrc : lookupFile source w.files = some c)
    (hne : d ≠ source)
    (hdtd : d.dir ≠ tempDirName w.nextTemp)
    (hB : eng.backupErr = none)
    (hC : eng.checkpointErr = none)
    (hN : 0 ≤ N) :
    ∃ w', sqlite_backup source (some d) wal true N strict atomic_copy_fs eng w =
        Except.ok (none, w') ∧
      lookupFile d w'.files = some c ∧
      (∀ cn ∈ w'.conns, (∀ c0 ∈ w.conns, c0.id ≠ cn.id) → cn.isOpen = false) := by
  have h1 : ¬(lookupFile source w.files = none) := by simp [hsrc]
  have h2 : ¬((some d : Option DbPath) = some source) := by simpa using hne
  obtain ⟨w1, heq, hc1, hc2, hc3, hc4, hstage, hframe⟩ :=
    copy_all_files_atomic
      { w with dirs := tempDirName w.nextTemp :: w.dirs, nextTemp := w.nextTemp + 1 }
      source (tempDirName w.nextTemp) N c hsrc (List.mem_cons_self _ _) hN
  cases wal with
  | true =>
    simp only [sqlite_backup, if_neg h1, if_neg h2, sqliteBackupBody, if_true]
    rw [heq]
    simp only [Bool.not_true, Bool.false_and, Bool.false_eq_true, if_false, hstage]
    simp only [backupAndFinalize, hB, hC, openConn, writeBackup, closeConn, hstage,
      Option.getD_some]
    simp only [hc3]
    refine ⟨_, rfl, ?_, ?_⟩
    · simp only [cleanupTd]
      rw [lookupFile_filter_dir d _ hdtd]
      exact lookupFile_setFile_self d c w1.files
    · intro cn hcn hfresh
      simp only [cleanupTd, List.map_cons, List.mem_cons, List.map_map] at hcn
      rcases hcn with hh1 | hh2 | hh3
      · subst hh1
        simp [Nat.succ_ne_self]
      · subst hh2
        simp [Nat.succ_ne_self]
      · obtain ⟨c0, hcc0, hcnid⟩ :=
          conn_mapped_id _
            (fun cc => by simp only [Function.comp]; split <;> split <;> rfl) hh3
        have hcc0w : c0 ∈ w.conns := by
          have hmem : c0 ∈ w1.conns := hcc0
          rw [hc1] at hmem
          exact hmem
        exact absurd hcnid.symm (hfresh c0 hcc0w)
  | false =>
    simp only [sqlite_backup, if_neg h1, if_neg h2, sqliteBackupBody, if_true]
    rw [heq]
    simp only [Bool.not_true, Bool.false_and, Bool.false_eq_true, if_false, hstage]
    simp only [backupAndFinalize, hB, openConn, writeBackup, closeConn, hstage,
      Option.getD_some]
    simp only [hc3]
    refine ⟨_, rfl, ?_, ?_⟩
    · simp only [cleanupTd]
      rw [lookupFile_filter_dir d _ hdtd]
      exact lookupFile_setFile_self d c w1.files
    · intro cn hcn hfresh
      simp only [cleanupTd, List.map_cons, List.mem_cons, List.map_map] at hcn
      rcases hcn with hh1 | hh2 | hh3
      · subst hh1
        simp [Nat.succ_ne_self]
      · subst hh2
        simp [Nat.succ_ne_self]
      · obtain ⟨c0, hcc0, hcnid⟩ :=
          conn_mapped_id _
            (fun cc => by simp only [Function.comp]; split <;> split <;> rfl) hh3
        have hcc0w : c0 ∈ w.conns := by
          have hmem : c0 ∈ w1.conns := hcc0
          rw [hc1] at hmem
          exact hmem
        exact absurd hcnid.symm (hfresh c0 hcc0w)

/-- C5: on a successful run, `sqlite_backup` with no destination returns
the identifier of an open in-memory connection holding the backed-up
source content (never nothing), while with a destination path it returns
nothing and every connection opened by the call — the destination
connection included — is already closed. -/
theorem claim_C5_return_contract (w : World) (source : DbPath) (wal : Bool)
    (N : Int) (strict : Bool) (eng : Engine) (c : Nat)
    (hsrc : lookupFile source w.files = some c)
    (hB : eng.backupErr = none)
    (hC : eng.checkpointErr = none)
    (hN : 0 ≤ N) :
    (∃ w', sqlite_backup source none wal true N strict atomic_copy_fs eng w =
        Except.ok (some w.nextConn, w') ∧
      Conn.mk w.nextConn ConnTarget.memory true c ∈ w'.conns) ∧
    (∀ d : DbPath, d ≠ source → d.dir ≠ tempDirName w.nextTemp →
      ∃ w', sqlite_backup source (some d) wal true N strict atomic_copy_fs eng w =
        Except.ok (none, w') ∧
      (∀ cn ∈ w'.conns, (∀ c0 ∈ w.conns, c0.id ≠ cn.id) → cn.isOpen = false)) := by
  constructor
  · obtain ⟨w', he, hm, _⟩ := sqlite_backup_memory_success w source wal N strict eng c
      hsrc hB hN
    exact ⟨w', he, hm⟩
  · intro d hne hdtd
    obtain ⟨w', he, _, hcl⟩ := sqlite_backup_file_success w source d wal N strict eng c
      hsrc hne hdtd hB hC hN
    exact ⟨w', he, hcl⟩

theorem claim_C5_return_contract_witness :
    (∃ w', sqlite_backup (DbPath.mk ['d'] ['d', 'b']) none true true 100 true
        atomic_copy_fs (Engine.mk none none) wExample =
      Except.ok (some wExample.nextConn, w') ∧
      Conn.mk wExample.nextConn ConnTarget.memory true 5 ∈ w'.conns) ∧
    (∃ w', sqlite_backup (DbPath.mk ['d'] ['d', 'b']) (some (DbPath.mk ['d'] ['z']))
        true true 100 true atomic_copy_fs (Engine.mk none none) wExample =
      Except.ok (none, w') ∧
      (∀ cn ∈ w'.conns, (∀ c0 ∈ wExample.conns, c0.id ≠ cn.id) → cn.isOpen = false)) :=
  ⟨(claim_C5_return_contract wExample (DbPath.mk ['d'] ['d', 'b']) true 100 true
      (Engine.mk none none) 5 (by decide) rfl rfl (by norm_num)).1,
    (claim_C5_return_contract wExample (DbPath.mk ['d'] ['d', 'b']) true 100 true
      (Engine.mk none none) 5 (by decide) rfl rfl (by norm_num)).2
      (DbPath.mk ['d'] ['z']) (by decide) (by decide)⟩

/-- C10: `sqlite_backup` makes no emptiness or absence check on a
path-backed destination: with a destination file that already exists (and
differs from the source) the run succeeds, and the destination file's
logical content afterwards is the source's content, replacing what was
there. -/
theorem claim_C10_existing_destination (w : World) (source d : DbPath) (wal : Bool)
    (N : Int) (strict : Bool) (eng : Engine) (c c0 : Nat)
    (hsrc : lookupFile source w.files = some c)
    (_hexists : lookupFile d w.files = some c0)
    (hne : d ≠ source)
    (hdtd : d.dir ≠ tempDirName w.nextTemp)
    (hB : eng.backupErr = none)
    (hC : eng.checkpointErr = none)
    (hN : 0 ≤ N) :
    ∃ w', sqlite_backup source (some d) wal true N strict atomic_copy_fs eng w =
        Except.ok (none, w') ∧
      lookupFile d w'.files = some c := by
  obtain ⟨w', he, hl, _⟩ := sqlite_backup_file_success w source d wal N strict eng c
    hsrc hne hdtd hB hC hN
  exact ⟨w', he, hl⟩

/-- A world with a primary database file and a pre-existing destination
file holding different content. -/
def wC10 : World :=
  World.mk [(DbPath.mk ['d'] ['d', 'b'], 5), (DbPath.mk ['d'] ['z'], 9)] [] [] 0 0

theorem claim_C10_existing_destination_witness :
    ∃ w', sqlite_backup (DbPath.mk ['d'] ['d', 'b']) (some (DbPath.mk ['d'] ['z']))
        true true 100 true atomic_copy_fs (Engine.mk none none) wC10 =
      Except.ok (none, w') ∧
      lookupFile (DbPath.mk ['d'] ['z']) w'.files = some 5 :=
  claim_C10_existing_destination wC10 (DbPath.mk ['d'] ['d', 'b']) (DbPath.mk ['d'] ['z'])
    true 100 true (Engine.mk none none) 5 9 (by decide) (by decide) (by decide) (by decide)
    rfl rfl (by norm_num)
